import Mathlib

set_option autoImplicit false

/-!
# Florida Bird Quest — verification of the derived-state core

Shallow embedding of the decision logic of `src/app/page.tsx`:
the filter/stats engine (`filtered`, `stats`), the challenge engine
(`toggleSeen` auto-count, manual count, `startChallenge`, `resetChallenge`,
`todaysPicks`) and the log store (`addLog` together with the `LogForm`
submit validation).

JavaScript strings are modelled as Lean `String`s (`length` counts
characters; identical to UTF-16 code-unit length on the BMP),
`Math.round` on non-negative numbers as exact rational rounding with ties
up, JavaScript objects keyed by species id as association lists with
insertion-order update semantics, and `Array.prototype.sort` (stable and
ascending under the numeric comparator used by the code) as a stable
insertion sort on the comparator's keys.
-/

namespace FBQ

/-- The twelve month abbreviations, `const months = ["Jan",...,"Dec"]`,
`type Month = typeof months[number]`. -/
inductive Month where
  | jan | feb | mar | apr | may | jun | jul | aug | sep | oct | nov | dec
deriving DecidableEq

/-- The literal string of a `Month` value. -/
def monthStr : Month → String
  | .jan => "Jan" | .feb => "Feb" | .mar => "Mar" | .apr => "Apr"
  | .may => "May" | .jun => "Jun" | .jul => "Jul" | .aug => "Aug"
  | .sep => "Sep" | .oct => "Oct" | .nov => "Nov" | .dec => "Dec"

/-- `type Months = Partial<Record<Month, boolean>>`: a partial map from
month keys to booleans, modelled as an association list. -/
abbrev Months := List (Month × Bool)

/-- `!!mm[m]`: truthiness of an optional-key access — `true` exactly when
the key is present and bound to `true`. -/
def monthsGet (mm : Months) (m : Month) : Bool :=
  ((mm.find? (fun p => decide (p.1 = m))).map Prod.snd).getD false

/-- `type Species` of `page.tsx`. -/
structure Species where
  id : String
  common : String
  sci : Option String := none
  family : Option String := none
  season : Option String := none
  habitat : Option String := none
  bestSpot : Option String := none
  months : Option Months := none
deriving DecidableEq

/-- `type UserSpecies` of `page.tsx` (the per-species user record). -/
structure UserSpecies where
  id : String
  seen : Bool
  target : Bool
  date : Option String := none
  location : Option String := none
  county : Option String := none
  notes : Option String := none
deriving DecidableEq

/-- `Record<string, UserSpecies>`: a JavaScript object keyed by species id,
modelled as an association list in key-insertion order. -/
abbrev UserMap := List (String × UserSpecies)

/-- Object property read `u[sid]` (first — and, under the object model,
only — binding of the key). -/
def lookupU (u : UserMap) (sid : String) : Option UserSpecies :=
  (u.find? (fun p => decide (p.1 = sid))).map Prod.snd

/-- Object spread update `{...u, [sid]: v}`: an existing key keeps its
position and gets the new value, a new key is appended at the end. -/
def setKey (u : UserMap) (sid : String) (v : UserSpecies) : UserMap :=
  if u.any (fun p => decide (p.1 = sid)) then
    u.map (fun p => if p.1 = sid then (sid, v) else p)
  else
    u ++ [(sid, v)]

/-- `type ChallengeState` of `page.tsx`. -/
structure ChallengeState where
  active : Bool
  startedAt : Option String := none
  completedIds : List String
deriving DecidableEq

/-- The mutable state the toggle operations act on: the user map and the
challenge state (the two `useState` cells they read and write). -/
structure AppState where
  user : UserMap
  challenge : ChallengeState
deriving DecidableEq

/-- `ensureUserRow(id)`: the stored record or a synthesized default. -/
def ensureUserRow (u : UserMap) (sid : String) : UserSpecies :=
  (lookupU u sid).getD { id := sid, seen := false, target := false }

/-- `toggleSeen(id)`: flip the seen flag (replacing the whole record) and,
when the challenge is active and the species just transitioned to seen, is
not already counted and the completed set is below 100, append it. -/
def toggleSeen (sid : String) (st : AppState) : AppState :=
  let current := ensureUserRow st.user sid
  let user' := setKey st.user sid { current with seen := !current.seen }
  if !st.challenge.active then { st with user := user' }
  else
    let nextSeen := !current.seen
    if nextSeen && !(st.challenge.completedIds.contains sid)
        && decide (st.challenge.completedIds.length < 100) then
      { user := user',
        challenge :=
          { st.challenge with
              completedIds := st.challenge.completedIds ++ [sid] } }
    else { st with user := user' }

/-- `toggleTarget(id)`: flip the target flag, replacing the record. -/
def toggleTarget (sid : String) (st : AppState) : AppState :=
  let current := ensureUserRow st.user sid
  { st with user := setKey st.user sid { current with target := !current.target } }

/-- The Count button `onClick` on the challenge screen: manual count of a
species, guarded by active / not-yet-counted / below-100 checks. -/
def countSpecies (sid : String) (st : AppState) : AppState :=
  if !st.challenge.active then st
  else if st.challenge.completedIds.contains sid then st
  else if decide (st.challenge.completedIds.length ≥ 100) then st
  else
    { st with
        challenge :=
          { st.challenge with
              completedIds := st.challenge.completedIds ++ [sid] } }

/-- `startChallenge()`; the fresh timestamp is a parameter. -/
def startChallenge (ts : String) (st : AppState) : AppState :=
  { st with challenge := { active := true, startedAt := some ts, completedIds := [] } }

/-- `resetChallenge()`. -/
def resetChallenge (st : AppState) : AppState :=
  { st with challenge := { active := false, startedAt := none, completedIds := [] } }

/-! ## String helpers mirroring the JavaScript primitives -/

/-- `String.prototype.trim()`: strip leading and trailing whitespace. -/
def jsTrim (s : String) : String :=
  ⟨((s.data.dropWhile Char.isWhitespace).reverse.dropWhile Char.isWhitespace).reverse⟩

/-- `String.prototype.toLowerCase()` (character-wise case folding). -/
def jsToLower (s : String) : String :=
  ⟨s.data.map Char.toLower⟩

/-- `hay.includes(pat)`: contiguous-substring test. -/
def jsIncludes (hay pat : String) : Bool :=
  decide (pat.data <:+: hay.data)

/-! ## Filter/Stats engine -/

/-- The aggregate `stats` record. -/
structure Stats where
  total : Nat
  seen : Nat
  targeted : Nat
  pct : Nat
deriving DecidableEq

/-- `Math.round((seen / total) * 100)` for `total ≠ 0`, computed exactly on
rationals with ties rounding up: `⌊(100·seen/total) + 1/2⌋ = (200·seen + total) / (2·total)`. -/
def roundPct (seen total : Nat) : Nat :=
  (200 * seen + total) / (2 * total)

/-- The `stats` memo: totals over the catalog and the user map. -/
def statsOf (species : List Species) (u : UserMap) : Stats :=
  let total := species.length
  let seen := (u.filter (fun p => p.2.seen)).length
  let targeted := (u.filter (fun p => p.2.target)).length
  let pct := if total ≠ 0 then roundPct seen total else 0
  { total := total, seen := seen, targeted := targeted, pct := pct }

/-- The `filtered` memo: three chained filters over the catalog
(targets-only, month, trimmed case-folded query). The `if (!m) return true`
guard of the source tests the month string for emptiness. -/
def filtered (species : List Species) (u : UserMap) (q : String)
    (targetsOnly : Bool) (month : Month) : List Species :=
  let t := jsToLower (jsTrim q)
  (((species.filter (fun s =>
      if targetsOnly then ((lookupU u s.id).map (fun r => r.target)).getD false
      else true)).filter (fun s =>
      if monthStr month = "" then true
      else
        match s.months with
        | none => true
        | some mm => monthsGet mm month)).filter (fun s =>
      if t = "" then true
      else
        jsIncludes (jsToLower s.common) t
        || jsIncludes (jsToLower (s.sci.getD "")) t
        || jsIncludes (jsToLower (s.family.getD "")) t
        || jsIncludes (jsToLower (s.habitat.getD "")) t))

/-! ## Challenge engine: daily picks -/

/-- The day-seed rolling hash: `h = (h * 31 + seedStr.charCodeAt(i)) >>> 0`
starting from 0 (unsigned 32-bit truncation each step). -/
def hashDate (s : String) : Nat :=
  s.data.foldl (fun h c => (h * 31 + c.toNat) % 2 ^ 32) 0

/-- The per-species comparator key
`(h ^ a.id.length ^ a.common.length) >>> 0`: JavaScript bitwise xor acts on
the operands' 32-bit images, so the lengths enter reduced mod `2^32`. -/
def sortKey (h : Nat) (s : Species) : Nat :=
  (h ^^^ s.id.length % 2 ^ 32) ^^^ s.common.length % 2 ^ 32

/-- `remaining`: the catalog minus the already-completed species. -/
def remainingOf (species : List Species) (completedIds : List String) : List Species :=
  species.filter (fun s => !(completedIds.contains s.id))

/-- `inMonth`: species whose month map marks the month, species without a
month map passing unconditionally. -/
def inMonthOf (remaining : List Species) (month : Month) : List Species :=
  remaining.filter (fun s =>
    match s.months with
    | some mm => monthsGet mm month
    | none => true)

/-- `pool = inMonth.length ? inMonth : remaining`. -/
def poolOf (species : List Species) (completedIds : List String) (month : Month) :
    List Species :=
  let remaining := remainingOf species completedIds
  let inMonth := inMonthOf remaining month
  if inMonth.length ≠ 0 then inMonth else remaining

/-- `todaysPicks`: sort the pool stably and ascending by the keyed
comparator (`(a, b) => ha - hb` under ES2019 stable sort) and take the
first 5. The date string (`toISOString().slice(0, 10)`) is a parameter. -/
def todaysPicks (species : List Species) (completedIds : List String)
    (month : Month) (dateStr : String) : List Species :=
  let pool := poolOf species completedIds month
  let h := hashDate dateStr
  let shuffled := List.insertionSort (fun a b => sortKey h a ≤ sortKey h b) pool
  shuffled.take 5

/-! ## Log store -/

/-- The closed `kind` set of a log entry. -/
inductive LogKind where
  | general | raptors | owls | shorebirds
deriving DecidableEq

/-- `type LogEntry` of `page.tsx`. -/
structure LogEntry where
  id : String
  date : String
  speciesName : String
  location : String
  county : Option String := none
  kind : LogKind
  settings : Option String := none
  notes : Option String := none
deriving DecidableEq

/-- The raw field values held by the `LogForm` component. -/
structure LogFormData where
  kind : LogKind
  date : String
  speciesName : String
  location : String
  county : String
  settings : String
  notes : String
deriving DecidableEq

/-- The entry built by the `LogForm` submit handler: trimmed fields,
`trim() || undefined` for the optional ones, and the identifier produced
by `uid("log")` — `Math.random`/`Date.now` based generation is modelled by
passing the generated string in. -/
def mkLogEntry (f : LogFormData) (newId : String) : LogEntry :=
  { id := newId
    date := f.date
    speciesName := jsTrim f.speciesName
    location := jsTrim f.location
    county := if jsTrim f.county = "" then none else some (jsTrim f.county)
    kind := f.kind
    settings := if jsTrim f.settings = "" then none else some (jsTrim f.settings)
    notes := if jsTrim f.notes = "" then none else some (jsTrim f.notes) }

/-- The `LogForm` `onSubmit` guard followed by `addLog`: blank species or
location (after trimming) is a silent no-op, otherwise the new entry is
prepended to the log sequence. -/
def submitLog (f : LogFormData) (newId : String) (logs : List LogEntry) : List LogEntry :=
  if jsTrim f.speciesName = "" || jsTrim f.location = "" then logs
  else mkLogEntry f newId :: logs

/-! ## Derived read accessors -/

/-- The seen flag the UI displays for a species: stored value, or the
synthesized default `false` when no record exists. -/
def seenOf (u : UserMap) (sid : String) : Bool :=
  ((lookupU u sid).map (fun r => r.seen)).getD false

/-- The target flag the UI displays for a species. -/
def targetOf (u : UserMap) (sid : String) : Bool :=
  ((lookupU u sid).map (fun r => r.target)).getD false

/-! ## Association-list (JavaScript object) lemmas -/

theorem find?_map_replace (u : UserMap) (sid : String) (v : UserSpecies)
    (h : u.any (fun p => decide (p.1 = sid)) = true) :
    (u.map (fun p => if p.1 = sid then (sid, v) else p)).find?
      (fun p => decide (p.1 = sid)) = some (sid, v) := by
  induction u with
  | nil => simp at h
  | cons a t ih =>
    by_cases ha : a.1 = sid
    · simp [ha, List.find?]
    · simp only [List.any_cons, ha, decide_eq_true_eq, Bool.false_or] at h
      simp [List.find?, ha, ih h]

theorem find?_map_replace_ne (u : UserMap) (sid j : String) (v : UserSpecies)
    (hj : j ≠ sid) :
    (u.map (fun p => if p.1 = sid then (sid, v) else p)).find?
      (fun p => decide (p.1 = j)) = u.find? (fun p => decide (p.1 = j)) := by
  have hd : (decide (sid = j)) = false := decide_eq_false (fun hh => hj hh.symm)
  induction u with
  | nil => simp
  | cons a t ih =>
    by_cases ha : a.1 = sid
    · simp [List.find?, ha, hd, ih]
    · simp [List.find?, ha, ih]

/-- Reading back the key just written. -/
theorem lookupU_setKey_self (u : UserMap) (sid : String) (v : UserSpecies) :
    lookupU (setKey u sid v) sid = some v := by
  unfold setKey lookupU
  by_cases h : u.any (fun p => decide (p.1 = sid)) = true
  · simp [h, find?_map_replace u sid v h]
  · have hn : u.find? (fun p => decide (p.1 = sid)) = none := by
      rw [List.find?_eq_none]
      intro p hp hdec
      exact h (List.any_eq_true.mpr ⟨p, hp, hdec⟩)
    simp [h, List.find?_append, hn, List.find?]

/-- Writing one key leaves every other key's binding unchanged. -/
theorem lookupU_setKey_ne (u : UserMap) (sid j : String) (v : UserSpecies)
    (hj : j ≠ sid) :
    lookupU (setKey u sid v) j = lookupU u j := by
  have hd : (decide (sid = j)) = false := decide_eq_false (fun hh => hj hh.symm)
  unfold setKey lookupU
  by_cases h : u.any (fun p => decide (p.1 = sid)) = true
  · simp [h, find?_map_replace_ne u sid j v hj]
  · simp [h, List.find?_append, List.find?, hd]

/-! ## toggleSeen shape lemmas -/

/-- In every branch of `toggleSeen` the user map gets the same record
update. -/
theorem toggleSeen_user (sid : String) (st : AppState) :
    (toggleSeen sid st).user =
      setKey st.user sid
        { ensureUserRow st.user sid with seen := !(ensureUserRow st.user sid).seen } := by
  unfold toggleSeen
  dsimp only
  split
  · rfl
  · split <;> rfl

/-- `toggleSeen` either leaves the challenge untouched or appends the
toggled id to the completed set. -/
theorem toggleSeen_challenge_cases (sid : String) (st : AppState) :
    (toggleSeen sid st).challenge = st.challenge ∨
      (toggleSeen sid st).challenge =
        { st.challenge with completedIds := st.challenge.completedIds ++ [sid] } := by
  unfold toggleSeen
  dsimp only
  split
  · exact Or.inl rfl
  · split
    · exact Or.inr rfl
    · exact Or.inl rfl

/-! ## Stable-sort congruence -/

/-- `orderedInsert` only inspects the relation between the inserted element
and the list elements. -/
theorem orderedInsert_congr {α : Type} (r r' : α → α → Prop)
    [DecidableRel r] [DecidableRel r'] (a : α) (l : List α)
    (h : ∀ y ∈ l, (r a y ↔ r' a y)) :
    List.orderedInsert r a l = List.orderedInsert r' a l := by
  induction l with
  | nil => rfl
  | cons b t ih =>
    have hb := h b (by simp)
    by_cases hr : r a b
    · rw [List.orderedInsert, List.orderedInsert, if_pos hr, if_pos (hb.mp hr)]
    · rw [List.orderedInsert, List.orderedInsert, if_neg hr,
        if_neg (fun hr' => hr (hb.mpr hr')), ih (fun y hy => h y (List.mem_cons_of_mem b hy))]

/-- Sorting is unchanged when the relation is replaced by one that agrees
on the list's elements. -/
theorem insertionSort_congr {α : Type} (r r' : α → α → Prop)
    [DecidableRel r] [DecidableRel r'] (l : List α)
    (h : ∀ x ∈ l, ∀ y ∈ l, (r x y ↔ r' x y)) :
    List.insertionSort r l = List.insertionSort r' l := by
  induction l with
  | nil => rfl
  | cons a t ih =>
    rw [List.insertionSort, List.insertionSort,
      ih (fun x hx y hy => h x (List.mem_cons_of_mem a hx) y (List.mem_cons_of_mem a hy))]
    apply orderedInsert_congr
    intro y hy
    have hyt : y ∈ t := (List.perm_insertionSort r' t).mem_iff.mp hy
    exact h a (List.mem_cons_self a t) y (List.mem_cons_of_mem a hyt)

/-! ## Daily picks: claim-side (spec-worded) definitions -/

/-- Claim wording: candidate pool = catalog minus the species whose
identifiers are in the completed set. -/
def remainingClaim (species : List Species) (completedIds : List String) : List Species :=
  species.filter (fun s => decide (s.id ∉ completedIds))

/-- Claim C1 wording, literally: narrow to the species whose
month-availability map includes the selected month as true (a species
without a map has no month included, so it is dropped). -/
def narrowedClaim (remaining : List Species) (month : Month) : List Species :=
  remaining.filter (fun s =>
    match s.months with
    | some mm => monthsGet mm month
    | none => false)

/-- The candidate pool exactly as claim C1 words it, with its fallback. -/
def poolClaim (species : List Species) (completedIds : List String) (month : Month) :
    List Species :=
  let remaining := remainingClaim species completedIds
  let narrowed := narrowedClaim remaining month
  if narrowed.length = 0 then remaining else narrowed

/-- The amended narrowing: keep the species whose month-availability map
includes the selected month as true, and also every species that has no
month-availability map. -/
def poolAmended (species : List Species) (completedIds : List String) (month : Month) :
    List Species :=
  let remaining := remainingClaim species completedIds
  let narrowed := remaining.filter (fun s =>
    match s.months with
    | some mm => monthsGet mm month
    | none => true)
  if narrowed.length = 0 then remaining else narrowed

/-- The code's remaining pool coincides with the claim's wording of
"catalog minus completed". -/
theorem remainingOf_eq_claim (species : List Species) (completedIds : List String) :
    remainingOf species completedIds = remainingClaim species completedIds := by
  unfold remainingOf remainingClaim
  apply List.filter_congr
  intro s _
  by_cases hm : s.id ∈ completedIds <;> simp [List.contains, List.elem_iff, hm]

/-- The code's pool is the amended claim's pool. -/
theorem poolOf_eq_amended (species : List Species) (completedIds : List String) (month : Month) :
    poolOf species completedIds month = poolAmended species completedIds month := by
  unfold poolOf poolAmended inMonthOf
  rw [remainingOf_eq_claim]
  by_cases h : (List.filter (fun s =>
      match s.months with
      | some mm => monthsGet mm month
      | none => true) (remainingClaim species completedIds)).length = 0
  · simp [h]
  · simp [h]

/-- Claim C2 wording: the day seed, a multiplicative rolling hash of the
date string (accumulator starts at 0, each step multiplies by 31, adds the
character code and truncates to unsigned 32-bit). -/
def daySeed_spec (d : String) : Nat :=
  d.data.foldl (fun acc c => (acc * 31 + c.toNat) % 2 ^ 32) 0

/-- Claim C2 wording: the per-species key, the exclusive-or of the day seed
with the identifier's length and the common name's length. -/
def sortKey_spec (seed : Nat) (s : Species) : Nat :=
  seed ^^^ s.id.length ^^^ s.common.length

/-- Claim C2 wording: order the pool by the per-species key and return the
first 5 entries in that order. -/
def orderedPicks_spec (d : String) (pool : List Species) : List Species :=
  (List.insertionSort
    (fun a b => sortKey_spec (daySeed_spec d) a ≤ sortKey_spec (daySeed_spec d) b) pool).take 5

/-! ## Sample data for witnesses and counterexamples -/

/-- A species without a month-availability map. -/
def spNoMap : Species := { id := "a", common := "A" }

/-- A species available in January only. -/
def spJanOnly : Species := { id := "b", common := "B", months := some [(Month.jan, true)] }

/-- Sample species whose sort keys coincide with the day seed. -/
def spX : Species := { id := "x", common := "X" }

/-- Sample species whose sort keys differ from the day seed in the low bits. -/
def spY : Species := { id := "yy", common := "Y" }

/-! ## C1: daily-picks pool construction and size bounds -/

/-- Counterexample to claim C1 as stated: with the catalog
`[spNoMap, spJanOnly]`, nothing completed and month January, the claim's
narrowing keeps only `spJanOnly` (pool size 1, no fallback), yet the code
also keeps the map-less species: `spNoMap` is returned although it is not
in the claim's pool, and the returned length 2 exceeds the claim's pool
size 1. -/
theorem todaysPicks_month_narrowing_cex :
    spNoMap ∈ todaysPicks [spNoMap, spJanOnly] [] Month.jan "2024-01-01"
    ∧ spNoMap ∉ poolClaim [spNoMap, spJanOnly] [] Month.jan
    ∧ ¬ ((todaysPicks [spNoMap, spJanOnly] [] Month.jan "2024-01-01").length ≤
          (poolClaim [spNoMap, spJanOnly] [] Month.jan).length) := by decide

/-- C1 (amended): the daily-picks pool is the catalog minus the completed
species, narrowed to the species whose month map includes the selected
month as true OR that have no month map, with fallback to the full
not-yet-completed pool when the narrowing is empty; every returned species
is drawn from that pool and the returned length is at most 5 and at most
the pool's size. -/
theorem todaysPicks_bounds (species : List Species) (completedIds : List String)
    (month : Month) (dateStr : String) :
    (∀ s ∈ todaysPicks species completedIds month dateStr,
        s ∈ poolOf species completedIds month)
    ∧ (todaysPicks species completedIds month dateStr).length ≤ 5
    ∧ (todaysPicks species completedIds month dateStr).length ≤
        (poolOf species completedIds month).length
    ∧ poolOf species completedIds month = poolAmended species completedIds month := by
  have hperm := List.perm_insertionSort
    (fun a b => sortKey (hashDate dateStr) a ≤ sortKey (hashDate dateStr) b)
    (poolOf species completedIds month)
  refine ⟨?_, ?_, ?_, poolOf_eq_amended species completedIds month⟩
  · intro s hs
    have hmem : s ∈ List.insertionSort
        (fun a b => sortKey (hashDate dateStr) a ≤ sortKey (hashDate dateStr) b)
        (poolOf species completedIds month) := List.take_subset 5 _ hs
    exact hperm.mem_iff.mp hmem
  · rw [todaysPicks, List.length_take]
    exact min_le_left ..
  · rw [todaysPicks, List.length_take, ← hperm.length_eq]
    exact min_le_right ..

/-! ## C2: the daily-picks seed, ordering and truncation -/

/-- C2: for every date string and pool the daily picks are the first 5
entries of the pool ordered by the claim's per-species key (day seed xor
identifier length xor common-name length, with the day seed the claim's
rolling hash of the date string). The lengths are assumed below the 32-bit
bound, as is forced for every string a JavaScript engine can hold. -/
theorem todaysPicks_spec_order (species : List Species) (completedIds : List String)
    (month : Month) (dateStr : String)
    (hlen : ∀ s ∈ poolOf species completedIds month,
      s.id.length < 2 ^ 32 ∧ s.common.length < 2 ^ 32) :
    todaysPicks species completedIds month dateStr =
      orderedPicks_spec dateStr (poolOf species completedIds month) := by
  unfold todaysPicks orderedPicks_spec
  dsimp only
  congr 1
  apply insertionSort_congr
  intro x hx y hy
  obtain ⟨hx1, hx2⟩ := hlen x hx
  obtain ⟨hy1, hy2⟩ := hlen y hy
  have hseed : hashDate dateStr = daySeed_spec dateStr := rfl
  unfold sortKey sortKey_spec
  rw [Nat.mod_eq_of_lt hx1, Nat.mod_eq_of_lt hx2, Nat.mod_eq_of_lt hy1,
    Nat.mod_eq_of_lt hy2, hseed]

/-- Witness for C2 at a concrete catalog and date. -/
theorem todaysPicks_spec_order_witness :
    (∀ s ∈ poolOf [spX, spY] [] Month.jan,
        s.id.length < 2 ^ 32 ∧ s.common.length < 2 ^ 32)
    ∧ todaysPicks [spX, spY] [] Month.jan "2024-01-01" =
        orderedPicks_spec "2024-01-01" (poolOf [spX, spY] [] Month.jan) :=
  ⟨by decide, todaysPicks_spec_order [spX, spY] [] Month.jan "2024-01-01" (by decide)⟩

/-! ## C3: determinism and sensitivity of the daily picks -/

/-- Counterexample to claim C3 as stated: its second half asserts that for
EVERY state changing the day or the completed set changes the result, but
the dates 2024-01-01 and 2024-01-02 hash to keys ordering `[spX, spY]`
identically, and completing an id that is not in the catalog leaves the
picks unchanged. -/
theorem todaysPicks_sensitivity_cex :
    (("2024-01-01" : String) ≠ "2024-01-02"
      ∧ todaysPicks [spX, spY] [] Month.jan "2024-01-01" =
          todaysPicks [spX, spY] [] Month.jan "2024-01-02")
    ∧ (([] : List String) ≠ ["zzz"]
      ∧ todaysPicks [spX, spY] [] Month.jan "2024-01-01" =
          todaysPicks [spX, spY] ["zzz"] Month.jan "2024-01-01") := by decide

/-- C3 (amended): two invocations on the same calendar day with the same
catalog, completed set and month return the identical list of at most 5
species in the same order; changing the completed set or the day CAN
change the result (witnessed concretely), but does not do so for every
state. -/
theorem todaysPicks_deterministic (species : List Species) (completedIds : List String)
    (month : Month) (d₁ d₂ : String) (hday : d₁ = d₂) :
    (todaysPicks species completedIds month d₁ =
        todaysPicks species completedIds month d₂
      ∧ (todaysPicks species completedIds month d₁).length ≤ 5)
    ∧ (∃ (cat : List Species) (c₁ c₂ : List String) (m : Month) (d : String),
        c₁ ≠ c₂ ∧ todaysPicks cat c₁ m d ≠ todaysPicks cat c₂ m d)
    ∧ (∃ (cat : List Species) (c : List String) (m : Month) (e₁ e₂ : String),
        e₁ ≠ e₂ ∧ todaysPicks cat c m e₁ ≠ todaysPicks cat c m e₂) := by
  refine ⟨⟨by rw [hday], ?_⟩, ?_, ?_⟩
  · rw [todaysPicks, List.length_take]
    exact min_le_left ..
  · exact ⟨[spX, spY], [], ["x"], Month.jan, "2024-01-01", by decide, by decide⟩
  · exact ⟨[spX, spY], [], Month.jan, "2024-01-01", "2024-01-03", by decide, by decide⟩

/-- Witness for C3 (amended) on a concrete same-day pair. -/
theorem todaysPicks_deterministic_witness :
    todaysPicks [spX, spY] [] Month.jan "2024-01-01" =
        todaysPicks [spX, spY] [] Month.jan "2024-01-01"
      ∧ (todaysPicks [spX, spY] [] Month.jan "2024-01-01").length ≤ 5 :=
  (todaysPicks_deterministic [spX, spY] [] Month.jan "2024-01-01" "2024-01-01" rfl).1

/-! ## C4: the toggle-seen / challenge auto-count contract -/

/-- C4: marking a species seen while the challenge is active, when it was
not seen, is not yet counted and the completed set is below 100, appends
its id to the completed set; a seen-to-not-seen transition removes
nothing; an inactive challenge is left entirely unchanged. -/
theorem toggleSeen_contract (st : AppState) (sid : String) :
    (st.challenge.active = true → (ensureUserRow st.user sid).seen = false →
      sid ∉ st.challenge.completedIds → st.challenge.completedIds.length < 100 →
      (toggleSeen sid st).challenge.completedIds = st.challenge.completedIds ++ [sid])
    ∧ ((ensureUserRow st.user sid).seen = true →
        ∀ x ∈ st.challenge.completedIds, x ∈ (toggleSeen sid st).challenge.completedIds)
    ∧ (st.challenge.active = false → (toggleSeen sid st).challenge = st.challenge) := by
  refine ⟨?_, ?_, ?_⟩
  · intro hact hseen hmem hlen
    unfold toggleSeen
    have hc : (st.challenge.completedIds.contains sid) = false := by
      rw [List.contains, ← Bool.not_eq_true, List.elem_iff]
      exact hmem
    simp [hact, hseen, hc, hlen, hmem]
  · intro hseen x hx
    rcases toggleSeen_challenge_cases sid st with h | h
    · rw [h]; exact hx
    · rw [h]; exact List.mem_append_left _ hx
  · intro hact
    unfold toggleSeen
    simp [hact]

/-- A state with an active challenge and nothing recorded. -/
def stActive : AppState :=
  { user := [],
    challenge := { active := true, startedAt := some "2024-01-01", completedIds := [] } }

/-- A state in which species `a` is already seen and counted. -/
def stSeenA : AppState :=
  { user := [("a", { id := "a", seen := true, target := false })],
    challenge := { active := true, startedAt := some "2024-01-01", completedIds := ["a"] } }

/-- A state with an inactive challenge. -/
def stInactive : AppState :=
  { user := [], challenge := { active := false, startedAt := none, completedIds := [] } }

/-- Witness for C4 at concrete states. -/
theorem toggleSeen_contract_witness :
    (toggleSeen "a" stActive).challenge.completedIds =
        stActive.challenge.completedIds ++ ["a"]
    ∧ (∀ x ∈ stSeenA.challenge.completedIds,
        x ∈ (toggleSeen "a" stSeenA).challenge.completedIds)
    ∧ (toggleSeen "a" stInactive).challenge = stInactive.challenge :=
  ⟨(toggleSeen_contract stActive "a").1 (by decide) (by decide) (by decide) (by decide),
   (toggleSeen_contract stSeenA "a").2.1 (by decide),
   (toggleSeen_contract stInactive "a").2.2 (by decide)⟩

/-! ## C5: the completed-set invariant -/

/-- The invariant claimed for the completed-identifiers list. -/
def challengeInv (c : ChallengeState) : Prop :=
  c.completedIds.Nodup ∧ c.completedIds.length ≤ 100

/-- The operations that can touch the challenge state. -/
inductive ChallengeOp where
  | toggleSeen (sid : String)
  | toggleTarget (sid : String)
  | countSpecies (sid : String)
  | start (ts : String)
  | reset

/-- Dispatch one operation on the state. -/
def applyOp (st : AppState) : ChallengeOp → AppState
  | .toggleSeen sid => toggleSeen sid st
  | .toggleTarget sid => toggleTarget sid st
  | .countSpecies sid => countSpecies sid st
  | .start ts => startChallenge ts st
  | .reset => resetChallenge st

/-- The empty initial state (`useState` initializers). -/
def initialState : AppState :=
  { user := [], challenge := { active := false, startedAt := none, completedIds := [] } }

theorem append_inv (l : List String) (sid : String) (hn : l.Nodup) (hm : sid ∉ l)
    (hl : l.length < 100) : (l ++ [sid]).Nodup ∧ (l ++ [sid]).length ≤ 100 := by
  constructor
  · simp [List.nodup_append, hn, hm]
  · simp only [List.length_append, List.length_cons, List.length_nil]
    omega

theorem toggleSeen_inv (sid : String) (st : AppState) (h : challengeInv st.challenge) :
    challengeInv ((toggleSeen sid st).challenge) := by
  unfold toggleSeen
  dsimp only
  split
  · exact h
  · split
    · next hcond =>
      simp only [Bool.and_eq_true, Bool.not_eq_true', decide_eq_true_eq] at hcond
      obtain ⟨⟨-, hc⟩, hlen⟩ := hcond
      have hm : sid ∉ st.challenge.completedIds := by
        rw [← List.elem_iff (α := String)]
        simp [List.contains] at hc
        simp [hc]
      exact append_inv _ _ h.1 hm hlen
    · exact h

theorem countSpecies_inv (sid : String) (st : AppState) (h : challengeInv st.challenge) :
    challengeInv ((countSpecies sid st).challenge) := by
  unfold countSpecies
  split
  · exact h
  · split
    · exact h
    · split
      · exact h
      · next h2 h3 =>
        have hm : sid ∉ st.challenge.completedIds := by
          intro hmem
          exact h2 (by rw [List.contains, List.elem_iff]; exact hmem)
        have hlen : st.challenge.completedIds.length < 100 := by
          by_contra hge
          exact h3 (by simpa using Nat.le_of_not_lt hge)
        exact append_inv _ _ h.1 hm hlen

theorem applyOp_inv (st : AppState) (op : ChallengeOp) (h : challengeInv st.challenge) :
    challengeInv ((applyOp st op).challenge) := by
  cases op with
  | toggleSeen sid => exact toggleSeen_inv sid st h
  | toggleTarget sid => exact h
  | countSpecies sid => exact countSpecies_inv sid st h
  | start ts => exact ⟨List.nodup_nil, by simp [applyOp, startChallenge]⟩
  | reset => exact ⟨List.nodup_nil, by simp [applyOp, resetChallenge]⟩

theorem foldl_applyOp_inv (ops : List ChallengeOp) (st : AppState)
    (h : challengeInv st.challenge) : challengeInv ((ops.foldl applyOp st).challenge) := by
  induction ops generalizing st with
  | nil => exact h
  | cons op t ih => exact ih (applyOp st op) (applyOp_inv st op h)

/-- C5: every challenge operation preserves the no-duplicates and at-most-
100 invariant of the completed set, and no sequence of operations starting
from the empty state can break it. -/
theorem challenge_invariant (st : AppState) (op : ChallengeOp) :
    (challengeInv st.challenge → challengeInv ((applyOp st op).challenge))
    ∧ (∀ ops : List ChallengeOp,
        challengeInv ((ops.foldl applyOp initialState).challenge)) :=
  ⟨applyOp_inv st op,
   fun ops => foldl_applyOp_inv ops initialState ⟨List.nodup_nil, by simp [initialState]⟩⟩

/-- Witness for C5 at a concrete state and operation. -/
theorem challenge_invariant_witness :
    challengeInv ((applyOp initialState (ChallengeOp.start "2024-01-01")).challenge) :=
  (challenge_invariant initialState (ChallengeOp.start "2024-01-01")).1
    ⟨List.nodup_nil, by simp [initialState]⟩

/-! ## C6: the filtered view -/

/-- The filter predicate exactly as claim C6 words it: (1) target-only
passes species having a record with target true, (2) a species that
declares a month map must have the selected month present and true in it
while map-less species always pass, (3) a non-empty trimmed case-folded
query must be a case-insensitive substring of common name, scientific
name, family or habitat. -/
def filterPredClaim (u : UserMap) (q : String) (targetsOnly : Bool) (month : Month)
    (s : Species) : Bool :=
  (if targetsOnly then targetOf u s.id else true)
  && (match s.months with
      | none => true
      | some mm => monthsGet mm month)
  && (let t := jsToLower (jsTrim q)
      if t = "" then true
      else
        jsIncludes (jsToLower s.common) t
        || jsIncludes (jsToLower (s.sci.getD "")) t
        || jsIncludes (jsToLower (s.family.getD "")) t
        || jsIncludes (jsToLower (s.habitat.getD "")) t)

/-- None of the twelve month strings is empty, so the defensive
`if (!m) return true` guard never fires. -/
theorem monthStr_ne_empty (m : Month) : monthStr m ≠ "" := by
  cases m <;> decide

/-- C6: the filtered view is exactly the subsequence of the catalog, in
original catalog order, of the species passing the claim's three
conditions. -/
theorem filtered_eq_claim (species : List Species) (u : UserMap) (q : String)
    (targetsOnly : Bool) (month : Month) :
    filtered species u q targetsOnly month =
        species.filter (filterPredClaim u q targetsOnly month)
    ∧ (filtered species u q targetsOnly month).Sublist species := by
  have hmain : filtered species u q targetsOnly month =
      species.filter (filterPredClaim u q targetsOnly month) := by
    unfold filtered
    rw [List.filter_filter, List.filter_filter]
    apply List.filter_congr
    intro s _
    rw [if_neg (monthStr_ne_empty month)]
    unfold filterPredClaim targetOf
    cases h1 : (if targetsOnly then ((lookupU u s.id).map (fun r => r.target)).getD false
        else true) <;>
      cases h2 : (match s.months with
        | none => true
        | some mm => monthsGet mm month) <;>
      simp [h1, h2]
  exact ⟨hmain, hmain ▸ List.filter_sublist species⟩

/-! ## C7: aggregate statistics bounds -/

theorem nodup_subset_length_le {l l' : List String} (h : l.Nodup) (hs : l ⊆ l') :
    l.length ≤ l'.length := by
  classical
  calc l.length = l.toFinset.card := (List.toFinset_card_of_nodup h).symm
    _ ≤ l'.toFinset.card := Finset.card_le_card (fun x hx => by
        simp only [List.mem_toFinset] at hx ⊢
        exact hs hx)
    _ ≤ l'.length := l'.toFinset_card_le

/-- Counterexample to claim C7 as stated: the seen count is taken over the
user records, which nothing ties to the catalog, so a record for a species
that is not in the catalog makes `seen` exceed `total` (here 1 > 0). -/
theorem stats_seen_le_total_cex :
    ¬ ((statsOf [] [("x", { id := "x", seen := true, target := false })]).seen ≤
        (statsOf [] [("x", { id := "x", seen := true, target := false })]).total) := by decide

/-- C7 (amended): `pct = 0` whenever `total = 0`, unconditionally; and
whenever the user map's keys are distinct and all of them identify catalog
species, `seen ≤ total` and `pct ≤ 100` (and `pct ≥ 0` trivially, being a
natural number). -/
theorem stats_bounds (species : List Species) (u : UserMap) :
    ((statsOf species u).total = 0 → (statsOf species u).pct = 0)
    ∧ ((u.map Prod.fst).Nodup → (∀ p ∈ u, p.1 ∈ species.map Species.id) →
        (statsOf species u).seen ≤ (statsOf species u).total
        ∧ (statsOf species u).pct ≤ 100) := by
  unfold statsOf
  dsimp only
  constructor
  · intro h
    simp [h]
  · intro hnodup hsub
    have hseen : (u.filter (fun p => p.2.seen)).length ≤ species.length := by
      have h1 : (u.filter (fun p => p.2.seen)).length ≤ u.length := List.length_filter_le ..
      have h2 : u.length = (u.map Prod.fst).length := (List.length_map ..).symm
      have h3 : (u.map Prod.fst).length ≤ (species.map Species.id).length :=
        nodup_subset_length_le hnodup (by
          intro x hx
          obtain ⟨p, hp, rfl⟩ := List.mem_map.mp hx
          exact hsub p hp)
      have h4 : (species.map Species.id).length = species.length := List.length_map ..
      omega
    refine ⟨hseen, ?_⟩
    by_cases h0 : species.length ≠ 0
    · rw [if_pos h0, roundPct,
        Nat.div_le_iff_le_mul_add_pred (by omega : 0 < 2 * species.length)]
      omega
    · rw [if_neg h0]
      omega

/-- Witness for C7 (amended) at a concrete catalog and user map. -/
theorem stats_bounds_witness :
    ((statsOf ([] : List Species) ([] : UserMap)).total = 0 →
      (statsOf ([] : List Species) ([] : UserMap)).pct = 0)
    ∧ ((statsOf [spNoMap] [("a", { id := "a", seen := true, target := false })]).seen ≤
          (statsOf [spNoMap] [("a", { id := "a", seen := true, target := false })]).total
        ∧ (statsOf [spNoMap] [("a", { id := "a", seen := true, target := false })]).pct ≤ 100) :=
  ⟨(stats_bounds [] []).1,
   (stats_bounds [spNoMap] [("a", { id := "a", seen := true, target := false })]).2
     (by decide) (by decide)⟩

/-! ## C8: toggling twice restores the flag -/

theorem seenOf_eq_ensure (u : UserMap) (sid : String) :
    seenOf u sid = (ensureUserRow u sid).seen := by
  cases hl : lookupU u sid <;> simp [seenOf, ensureUserRow, hl]

theorem targetOf_eq_ensure (u : UserMap) (sid : String) :
    targetOf u sid = (ensureUserRow u sid).target := by
  cases hl : lookupU u sid <;> simp [targetOf, ensureUserRow, hl]

theorem ensureUserRow_toggleSeen (sid : String) (st : AppState) :
    ensureUserRow (toggleSeen sid st).user sid =
      { ensureUserRow st.user sid with seen := !(ensureUserRow st.user sid).seen } := by
  rw [ensureUserRow, toggleSeen_user, lookupU_setKey_self, Option.getD_some]

theorem ensureUserRow_toggleTarget (sid : String) (st : AppState) :
    ensureUserRow (toggleTarget sid st).user sid =
      { ensureUserRow st.user sid with target := !(ensureUserRow st.user sid).target } := by
  rw [ensureUserRow, toggleTarget]
  dsimp only
  rw [lookupU_setKey_self, Option.getD_some]

/-- C8: toggling seen twice returns the species' displayed seen value to
its original value, and toggling target twice returns its displayed target
value, for every state (a missing record counting as seen=false,
target=false, exactly as the code's synthesized default reads it). -/
theorem toggle_twice_restores (st : AppState) (sid : String) :
    seenOf (toggleSeen sid (toggleSeen sid st)).user sid = seenOf st.user sid
    ∧ targetOf (toggleTarget sid (toggleTarget sid st)).user sid = targetOf st.user sid := by
  constructor
  · rw [seenOf_eq_ensure, ensureUserRow_toggleSeen, ensureUserRow_toggleSeen,
      seenOf_eq_ensure]
    simp
  · rw [targetOf_eq_ensure, ensureUserRow_toggleTarget, ensureUserRow_toggleTarget,
      targetOf_eq_ensure]
    simp

/-! ## C9: log submission -/

/-- C9: a submission whose species name or location trims to empty leaves
the log sequence unchanged (a silent no-op); otherwise the built entry —
carrying the generated identifier — is prepended with the previous entries
unchanged. -/
theorem submitLog_contract (f : LogFormData) (newId : String) (logs : List LogEntry) :
    ((jsTrim f.speciesName = "" ∨ jsTrim f.location = "") →
      submitLog f newId logs = logs)
    ∧ (jsTrim f.speciesName ≠ "" → jsTrim f.location ≠ "" →
        submitLog f newId logs = mkLogEntry f newId :: logs
        ∧ (mkLogEntry f newId).id = newId
        ∧ (submitLog f newId logs).length = logs.length + 1) := by
  constructor
  · intro h
    unfold submitLog
    rcases h with h | h <;> simp [h]
  · intro h1 h2
    unfold submitLog
    simp [h1, h2, mkLogEntry]

/-- A form whose species name is whitespace only. -/
def formBlank : LogFormData :=
  { kind := .general, date := "2024-01-01", speciesName := " ", location := "Ocala",
    county := "", settings := "", notes := "" }

/-- A validly filled form. -/
def formValid : LogFormData :=
  { kind := .raptors, date := "2024-01-01", speciesName := " Snail Kite ",
    location := " Ocala ", county := "", settings := "", notes := "" }

/-- Witness for C9 on concrete submissions. -/
theorem submitLog_contract_witness :
    submitLog formBlank "log-1" [] = []
    ∧ (submitLog formValid "log-1" [] = mkLogEntry formValid "log-1" :: []
        ∧ (mkLogEntry formValid "log-1").id = "log-1"
        ∧ (submitLog formValid "log-1" []).length = ([] : List LogEntry).length + 1) :=
  ⟨(submitLog_contract formBlank "log-1" []).1 (Or.inl (by decide)),
   (submitLog_contract formValid "log-1" []).2 (by decide) (by decide)⟩

/-! ## C10: the toggle-target frame -/

/-- C10: toggle-target creates or replaces only the toggled species'
record, flipping exactly its target flag: the record's seen flag, date,
location, county and notes are preserved (seen is false when the record
did not exist), every other key's binding is untouched, and the challenge
state is untouched. -/
theorem toggleTarget_frame (st : AppState) (sid : String) :
    lookupU (toggleTarget sid st).user sid =
        some { ensureUserRow st.user sid with target := !(ensureUserRow st.user sid).target }
    ∧ (ensureUserRow (toggleTarget sid st).user sid).seen = (ensureUserRow st.user sid).seen
    ∧ (ensureUserRow (toggleTarget sid st).user sid).date = (ensureUserRow st.user sid).date
    ∧ (ensureUserRow (toggleTarget sid st).user sid).location =
        (ensureUserRow st.user sid).location
    ∧ (ensureUserRow (toggleTarget sid st).user sid).county = (ensureUserRow st.user sid).county
    ∧ (ensureUserRow (toggleTarget sid st).user sid).notes = (ensureUserRow st.user sid).notes
    ∧ (lookupU st.user sid = none →
        (ensureUserRow (toggleTarget sid st).user sid).seen = false)
    ∧ (∀ j, j ≠ sid → lookupU (toggleTarget sid st).user j = lookupU st.user j)
    ∧ (toggleTarget sid st).challenge = st.challenge := by
  refine ⟨?_, ?_, ?_, ?_, ?_, ?_, ?_, ?_, rfl⟩
  · rw [toggleTarget]
    dsimp only
    rw [lookupU_setKey_self]
  · rw [ensureUserRow_toggleTarget]
  · rw [ensureUserRow_toggleTarget]
  · rw [ensureUserRow_toggleTarget]
  · rw [ensureUserRow_toggleTarget]
  · rw [ensureUserRow_toggleTarget]
  · intro hnone
    rw [ensureUserRow_toggleTarget]
    simp [ensureUserRow, hnone]
  · intro j hj
    rw [toggleTarget]
    dsimp only
    exact lookupU_setKey_ne st.user sid j _ hj

/-- Witness for C10 at a concrete state. -/
theorem toggleTarget_frame_witness :
    (ensureUserRow (toggleTarget "a" stActive).user "a").seen = false
    ∧ lookupU (toggleTarget "a" stActive).user "b" = lookupU stActive.user "b" :=
  ⟨(toggleTarget_frame stActive "a").2.2.2.2.2.2.1 (by decide),
   (toggleTarget_frame stActive "a").2.2.2.2.2.2.2.1 "b" (by decide)⟩

end FBQ
